import Mathlib

/-!
Verification of the RAG-powered website chatbot against its design
specification.  Strings are modelled as `List Char`; Python dicts that the
code builds become structures; the external collaborators (HTTP session,
BeautifulSoup, FAISS/LangChain, the `re` and `urllib` modules' unicode
tables) are either modelled concretely where their behaviour is plain
string processing, or passed in as oracle functions where they perform
I/O.  Fallible Python code is embedded with `Except`/`Option` results.
-/

/-- Coerce a Lean string literal to the `List Char` representation used
throughout this development. -/
def str (s : String) : List Char := s.data

/-- ASCII whitespace, the default strip set of Python `str.strip()`
(restricted to the ASCII range). -/
def isPySpace (c : Char) : Bool :=
  c = ' ' || c = '\t' || c = '\n' || c = '\x0d' || c = '\x0b' || c = '\x0c'

/-- Python `str.strip()`: remove leading and trailing whitespace. -/
def pyStrip (s : List Char) : List Char :=
  ((s.dropWhile isPySpace).reverse.dropWhile isPySpace).reverse

/-- Python `str.lower()` on the ASCII range (used for `re.IGNORECASE`). -/
def lowerStr (s : List Char) : List Char := s.map Char.toLower

/-! ## Pages and chunks (src/ingestion.py) -/

/-- The page dict assembled by `WebsiteIngestion`/fed to `chunk_content`:
only the fields `chunk_content` reads (`url`, `title`, `content`). -/
structure Page where
  url : List Char
  title : List Char
  content : List Char
  deriving DecidableEq

/-- The chunk dict built by `WebsiteIngestion.chunk_content`. -/
structure Chunk where
  url : List Char
  title : List Char
  content : List Char
  chunkId : List Char
  deriving DecidableEq

/-- Python exceptions that the embedded code can raise. -/
inductive PyError where
  | valueError : PyError
  | runtime : List Char → PyError
  deriving DecidableEq

/-- Python `range(0, n, step)` for a positive step: the multiples of
`step` strictly below `n`. -/
def pyRangeTo (n step : Nat) : List Nat :=
  (List.range ((n + step - 1) / step)).map (· * step)

/-- The chunk windows `content[i:i+chunkSize]` for `i` ranging over
`range(0, len(content), step)`, before the minimum-size filter. -/
def fixedWindows (chunkSize step : Nat) (content : List Char) : List (List Char) :=
  (pyRangeTo content.length step).map (fun i => (content.drop i).take chunkSize)

/-- The `chunk_id` string `f"(url)_(k)"` built from the page url and the
window index. -/
def mkChunkId (url : List Char) (k : Nat) : List Char :=
  url ++ '_' :: (Nat.repr k).data

/-- `WebsiteIngestion.chunk_content`, one page of the loop body.
`range(0, len(content), chunk_size - overlap)` raises `ValueError` when
the step is zero and is empty when the step is negative; otherwise each
window whose stripped length exceeds 50 is emitted. -/
def chunk_content_page (chunkSize overlap : Nat) (page : Page) :
    Except PyError (List Chunk) :=
  if chunkSize = overlap then .error .valueError
  else if chunkSize < overlap then .ok []
  else .ok ((pyRangeTo page.content.length (chunkSize - overlap)).filterMap
    (fun i =>
      let w := (page.content.drop i).take chunkSize
      if 50 < (pyStrip w).length then
        some ⟨page.url, page.title, w, mkChunkId page.url (i / (chunkSize - overlap))⟩
      else none))

/-- `WebsiteIngestion.chunk_content`: concatenate the per-page chunks; a
`ValueError` raised while processing a page aborts the whole call. -/
def chunk_content (chunkSize overlap : Nat) (pages : List Page) :
    Except PyError (List Chunk) :=
  match pages with
  | [] => .ok []
  | p :: rest => do
      let cs ← chunk_content_page chunkSize overlap p
      let csRest ← chunk_content chunkSize overlap rest
      return cs ++ csRest

/-- Concatenate a chunk list after removing the `overlap` re-used leading
characters from every chunk but the first. -/
def reconstructOverlap (overlap : Nat) : List (List Char) → List Char
  | [] => []
  | w :: ws => w ++ (ws.map (List.drop overlap)).flatten

/-! ### Window arithmetic of the fixed-size chunker -/

theorem pyRangeTo_zero (step : Nat) : pyRangeTo 0 step = [] := by
  unfold pyRangeTo
  rcases Nat.eq_zero_or_pos step with h | h
  · simp [h]
  · rw [Nat.zero_add, Nat.div_eq_of_lt (Nat.sub_lt h Nat.one_pos)]
    simp

theorem numWindows_succ (n step : Nat) (hstep : 0 < step) (hn : 0 < n) :
    (n + step - 1) / step = ((n - step) + step - 1) / step + 1 := by
  rcases Nat.lt_or_ge step n with h | h
  · have h1 : n - step + step - 1 = n - 1 := by omega
    have h2 : n + step - 1 = (n - 1) + step := by omega
    rw [h1, h2, Nat.add_div_right _ hstep]
  · have h1 : n - step = 0 := by omega
    rw [h1, Nat.zero_add, Nat.div_eq_of_lt (Nat.sub_lt hstep Nat.one_pos)]
    have h2 : n + step - 1 = (n - 1) + step := by omega
    rw [h2, Nat.add_div_right _ hstep, Nat.div_eq_of_lt (by omega)]

theorem pyRangeTo_cons (n step : Nat) (hstep : 0 < step) (hn : 0 < n) :
    pyRangeTo n step = 0 :: (pyRangeTo (n - step) step).map (· + step) := by
  unfold pyRangeTo
  rw [numWindows_succ n step hstep hn, List.range_succ_eq_map]
  simp only [List.map_cons, List.map_map, Nat.zero_mul]
  refine congrArg₂ (· :: ·) rfl ?_
  exact List.map_congr_left fun k _ => by
    show (k + 1) * step = k * step + step
    ring

theorem fixedWindows_nil (cs step : Nat) : fixedWindows cs step [] = [] := by
  simp [fixedWindows, pyRangeTo_zero]

theorem fixedWindows_cons (cs step : Nat) (content : List Char)
    (hstep : 0 < step) (hc : content ≠ []) :
    fixedWindows cs step content =
      content.take cs :: fixedWindows cs step (content.drop step) := by
  unfold fixedWindows
  have hn : 0 < content.length := List.length_pos.mpr hc
  rw [pyRangeTo_cons content.length step hstep hn, List.map_cons, List.length_drop]
  refine congrArg₂ (· :: ·) (by simp) ?_
  rw [List.map_map]
  exact List.map_congr_left fun i _ => by
    show (content.drop (i + step)).take cs = ((content.drop step).drop i).take cs
    rw [List.drop_drop, Nat.add_comm step i]

theorem fixedWindows_drop_flatten (step ov : Nat) (hstep : 0 < step) :
    ∀ (n : Nat) (content : List Char), content.length ≤ n →
      ((fixedWindows (step + ov) step content).map (List.drop ov)).flatten =
        content.drop ov := by
  intro n
  induction n with
  | zero =>
      intro content hlen
      rw [List.eq_nil_of_length_eq_zero (Nat.le_zero.mp hlen)]
      simp [fixedWindows_nil]
  | succ n ih =>
      intro content hlen
      by_cases hc : content = []
      · simp [hc, fixedWindows_nil]
      · rw [fixedWindows_cons _ _ _ hstep hc, List.map_cons, List.flatten_cons,
          ih (content.drop step)
            (by rw [List.length_drop]
                have := List.length_pos.mpr hc
                omega)]
        rw [List.drop_take, Nat.add_sub_cancel, List.drop_drop, Nat.add_comm step ov,
          ← List.drop_drop, List.take_append_drop]

theorem fixedWindows_reconstruct (cs ov : Nat) (hov : ov < cs) (content : List Char) :
    reconstructOverlap ov (fixedWindows cs (cs - ov) content) = content := by
  by_cases hc : content = []
  · simp [hc, fixedWindows_nil, reconstructOverlap]
  · have hstep : 0 < cs - ov := by omega
    rw [fixedWindows_cons cs (cs - ov) content hstep hc]
    show content.take cs ++
        ((fixedWindows cs (cs - ov) (content.drop (cs - ov))).map (List.drop ov)).flatten
      = content
    have hjoin := fixedWindows_drop_flatten (cs - ov) ov hstep
      (content.drop (cs - ov)).length (content.drop (cs - ov)) le_rfl
    rw [Nat.sub_add_cancel (le_of_lt hov)] at hjoin
    rw [hjoin, List.drop_drop, Nat.sub_add_cancel (le_of_lt hov), List.take_append_drop]

theorem chunk_content_page_ok (cs ov : Nat) (hov : ov < cs) (page : Page) :
    ∃ chunks, chunk_content_page cs ov page = .ok chunks ∧
      ∀ c ∈ chunks, c.content.length ≤ cs := by
  unfold chunk_content_page
  rw [if_neg (by omega), if_neg (by omega)]
  refine ⟨_, rfl, ?_⟩
  intro c hc
  rcases List.mem_filterMap.mp hc with ⟨i, _, hfi⟩
  dsimp only at hfi
  split at hfi
  · cases hfi
    exact le_trans (List.length_take_le _ _) le_rfl
  · cases hfi

theorem chunk_content_neg_step (cs ov : Nat) (h : cs < ov) (pages : List Page) :
    chunk_content cs ov pages = .ok [] := by
  induction pages with
  | nil => rfl
  | cons p rest ih =>
      show (do
        let cs1 ← chunk_content_page cs ov p
        let cs2 ← chunk_content cs ov rest
        return cs1 ++ cs2) = Except.ok []
      rw [ih]
      unfold chunk_content_page
      rw [if_neg (by omega), if_pos h]
      rfl

/-- C1 (amended): for chunk_size > overlap ≥ 0 the fixed-size chunker
`chunk_content` succeeds, every emitted chunk has length at most
chunk_size, and the concatenation of the pre-filter windows with the
overlap characters removed reconstructs each page text exactly; the
emitted chunks are only those windows whose stripped length exceeds 50,
so the emitted chunks alone need not reconstruct the text. -/
theorem chunk_content_fixed_chunker_spec (cs ov : Nat) (hov : ov < cs)
    (pages : List Page) :
    ∃ chunks, chunk_content cs ov pages = .ok chunks ∧
      (∀ c ∈ chunks, c.content.length ≤ cs) ∧
      (∀ p ∈ pages,
        reconstructOverlap ov (fixedWindows cs (cs - ov) p.content) = p.content) := by
  induction pages with
  | nil => exact ⟨[], rfl, by simp, by simp⟩
  | cons p rest ih =>
      rcases ih with ⟨chunksR, hR, hlenR, _⟩
      rcases chunk_content_page_ok cs ov hov p with ⟨chunksP, hP, hlenP⟩
      refine ⟨chunksP ++ chunksR, ?_, ?_, ?_⟩
      · show (do
            let cs1 ← chunk_content_page cs ov p
            let cs2 ← chunk_content cs ov rest
            return cs1 ++ cs2) = Except.ok (chunksP ++ chunksR)
        rw [hP, hR]
        rfl
      · intro c hc
        rcases List.mem_append.mp hc with h | h
        · exact hlenP c h
        · exact hlenR c h
      · intro q hq
        exact fixedWindows_reconstruct cs ov hov q.content

/-- Witness for C1 (amended) at chunk_size 2, overlap 1 and a concrete
three-character page. -/
theorem chunk_content_fixed_chunker_spec_witness :
    (1 : Nat) < 2 ∧
      ∃ chunks, chunk_content 2 1 [⟨str "u", str "t", str "abc"⟩] = .ok chunks ∧
        (∀ c ∈ chunks, c.content.length ≤ 2) ∧
        (∀ p ∈ [(⟨str "u", str "t", str "abc"⟩ : Page)],
          reconstructOverlap 1 (fixedWindows 2 (2 - 1) p.content) = p.content) :=
  ⟨by decide, chunk_content_fixed_chunker_spec 2 1 (by decide) [⟨str "u", str "t", str "abc"⟩]⟩

/-- C1 counterexample: a 30-character page is entirely discarded by the
minimum-stripped-length-50 filter of `chunk_content`, so the emitted
chunks (none at all) do not reconstruct the page text. -/
theorem chunk_content_small_page_loses_text :
    chunk_content 1000 200 [⟨str "u", str "t", List.replicate 30 'a'⟩] = .ok [] ∧
      reconstructOverlap 200 ([].map Chunk.content) ≠ List.replicate 30 'a' := by
  constructor
  · rfl
  · decide

/-- C9: with chunk_size equal to overlap, `chunk_content` raises
`ValueError` (the zero-step `range`) for any page list containing a page
with non-empty content; with chunk_size below overlap the negative-step
`range` is empty and the call silently returns no chunks at all. -/
theorem chunk_content_degenerate_strides (cs : Nat) (pages : List Page)
    (page : Page) (hmem : page ∈ pages) (_hne : page.content ≠ []) :
    chunk_content cs cs pages = .error .valueError ∧
      ∀ ov, cs < ov → chunk_content cs ov pages = .ok [] := by
  constructor
  · match pages, hmem with
    | p :: rest, _ =>
        show (do
          let cs1 ← chunk_content_page cs cs p
          let cs2 ← chunk_content cs cs rest
          return cs1 ++ cs2) = Except.error PyError.valueError
        unfold chunk_content_page
        rw [if_pos rfl]
        rfl
  · intro ov hov
    exact chunk_content_neg_step cs ov hov pages

/-- Witness for C9 at chunk_size 5 and a concrete non-empty page. -/
theorem chunk_content_degenerate_strides_witness :
    (⟨str "u", str "t", str "abc"⟩ : Page) ∈ [(⟨str "u", str "t", str "abc"⟩ : Page)] ∧
      (⟨str "u", str "t", str "abc"⟩ : Page).content ≠ [] ∧
      (chunk_content 5 5 [(⟨str "u", str "t", str "abc"⟩ : Page)] = .error .valueError ∧
        ∀ ov, 5 < ov → chunk_content 5 ov [(⟨str "u", str "t", str "abc"⟩ : Page)] = .ok []) :=
  ⟨by decide, by decide,
    chunk_content_degenerate_strides 5 [⟨str "u", str "t", str "abc"⟩]
      ⟨str "u", str "t", str "abc"⟩ (by decide) (by decide)⟩

/-! ## Semantic chunker (src/web_scraper.py, `_chunk_by_headings`) -/

/-- The heading structure extracted by `_extract_headings`: the texts of
the `h1`..`h6` elements of a page. -/
structure Headings where
  h1 : List (List Char)
  h2 : List (List Char)
  h3 : List (List Char)
  h4 : List (List Char)
  h5 : List (List Char)
  h6 : List (List Char)
  deriving DecidableEq

/-- A sentence-terminator character, the class `[.!?]` of the split
regex. -/
def isTerm (c : Char) : Bool := c = '.' || c = '!' || c = '?'

/-- `re.split` over `[.!?]+`: the fields between maximal runs of
terminator characters (consecutive terminators count as one separator,
and boundary runs contribute empty fields). -/
def splitTermsAux (lastWasTerm : Bool) : List Char → List (List Char)
  | [] => [[]]
  | c :: rest =>
      if isTerm c then
        if lastWasTerm then splitTermsAux true rest
        else [] :: splitTermsAux true rest
      else
        match splitTermsAux false rest with
        | f :: fs => (c :: f) :: fs
        | [] => [[c]]

/-- `re.split(r'[.!?]+', content)`. -/
def splitTerms (content : List Char) : List (List Char) := splitTermsAux false content

/-- The sentence-accumulation loop of `_chunk_by_headings`: skip empty
sentences, append a sentence (plus `". "`) to the current chunk while the
combined length stays below 1000, otherwise flush the current chunk. -/
def chunkByHeadingsLoop (current : List Char) : List (List Char) → List (List Char)
  | [] => if current ≠ [] then [pyStrip current] else []
  | s :: rest =>
      let s := pyStrip s
      if s = [] then chunkByHeadingsLoop current rest
      else if current.length + s.length < 1000 then
        chunkByHeadingsLoop (current ++ s ++ str ". ") rest
      else
        (if current ≠ [] then [pyStrip current] else []) ++
          chunkByHeadingsLoop (s ++ str ". ") rest

/-- `AdvancedWebScraper._chunk_by_headings(content, headings)`: split the
content on sentence terminators and greedily accumulate the sentences;
the `headings` argument is taken but never read. -/
def chunk_by_headings (content : List Char) (headings : Headings) : List (List Char) :=
  chunkByHeadingsLoop [] (splitTerms content)

/-- C7: the semantic chunker produces the same chunks for any two heading
structures over the same content — its output never depends on the
heading positions, only on the sentence split of the content. -/
theorem chunk_by_headings_ignores_headings (content : List Char) (h1 h2 : Headings) :
    chunk_by_headings content h1 = chunk_by_headings content h2 := rfl

/-! ## URL filtering (src/web_scraper.py `is_valid_url`,
src/ingestion.py `_extract_links`) -/

/-- A character allowed after the first one in a URL scheme.  Modelled
from `urllib.parse.urlparse` of the external standard library. -/
def isSchemeChar (c : Char) : Bool := c.isAlphanum || c = '+' || c = '-' || c = '.'

/-- A syntactically valid URL scheme: a letter followed by scheme
characters.  Modelled from `urllib.parse.urlparse`. -/
def validScheme : List Char → Bool
  | [] => false
  | c :: rest => c.isAlpha && rest.all isSchemeChar

/-- Split `scheme:rest` as `urllib.parse.urlparse` does: when the text
before the first colon is a valid scheme it is the (lowercased) scheme,
otherwise the scheme is empty and nothing is consumed. -/
def urlSchemeSplit (s : List Char) : List Char × List Char :=
  let pre := s.takeWhile (· ≠ ':')
  if pre.length < s.length && validScheme pre then
    (lowerStr pre, s.drop (pre.length + 1))
  else ([], s)

/-- The `scheme` component of `urllib.parse.urlparse`. -/
def urlScheme (s : List Char) : List Char := (urlSchemeSplit s).1

/-- The `netloc` component of `urllib.parse.urlparse`: present only after
a `//`, and delimited by the next `/`, `?` or `#`. -/
def urlNetloc (s : List Char) : List Char :=
  let rest := (urlSchemeSplit s).2
  if rest.take 2 = str "//" then
    (rest.drop 2).takeWhile (fun c => !(c = '/' || c = '?' || c = '#'))
  else []

/-- `pat` occurs as a contiguous substring of `s`. -/
def containsSub (pat : List Char) : List Char → Bool
  | [] => pat.isEmpty
  | c :: rest => pat.isPrefixOf (c :: rest) || containsSub pat rest

/-- The literal cores of the `.*/X.*` skip patterns of `is_valid_url`;
`re.match` with a leading and trailing `.*` tests (on newline-free URLs)
that the URL contains the core, case-insensitively. -/
def skipPathPats : List (List Char) :=
  [str "/login", str "/register", str "/logout", str "/admin", str "/api",
   str "/feed", str "/sitemap", str "/search", str "/cart", str "/checkout",
   str "/account", str "/profile", str "/settings", str "/help", str "/faq",
   str "/contact", str "/privacy", str "/terms", str "/cookie", str "/legal"]

/-- The extension alternatives of the first skip pattern
`.*\.(pdf|jpg|jpeg|png|gif|svg|css|js|ico)$`: on newline-free URLs the
pattern tests a case-insensitive suffix. -/
def advAssetExts : List (List Char) :=
  [str ".pdf", str ".jpg", str ".jpeg", str ".png", str ".gif", str ".svg",
   str ".css", str ".js", str ".ico"]

/-- `AdvancedWebScraper.is_valid_url(url, base_domain)`: reject a URL on
a different netloc (when domain restriction is on), then reject any URL
matching one of the skip patterns (asset extensions first, then the path
cores); everything else is accepted.  No scheme check appears here. -/
def is_valid_url (domainRestrictions : Bool) (url baseDomain : List Char) : Bool :=
  (!domainRestrictions || urlNetloc url == urlNetloc baseDomain) &&
  !(advAssetExts.any fun e => e.isSuffixOf (lowerStr url)) &&
  !(skipPathPats.any fun p => containsSub p (lowerStr url))

/-- The static-asset extensions rejected by
`WebsiteIngestion._extract_links` (case-sensitive `str.endswith`). -/
def ingAssetExts : List (List Char) :=
  [str ".pdf", str ".jpg", str ".png", str ".gif", str ".zip", str ".css", str ".js"]

/-- Truncate at the first occurrence of `marker`; embeds
`re.sub(r'#.*$', '', s)` (and the `?` variant) on newline-free URLs and
`full_url.split('#')[0]`. -/
def stripFrom (marker : Char) (s : List Char) : List Char := s.takeWhile (· ≠ marker)

/-- The per-anchor acceptance test of `WebsiteIngestion._extract_links`:
same netloc as the base page, scheme `http` or `https`, and not ending in
a static-asset extension. -/
def ingestion_link_ok (baseDomain fullUrl : List Char) : Bool :=
  urlNetloc fullUrl == baseDomain &&
  (urlScheme fullUrl == str "http" || urlScheme fullUrl == str "https") &&
  !(ingAssetExts.any fun e => e.isSuffixOf fullUrl)

/-- `WebsiteIngestion._extract_links`, applied to the already-resolved
(`urljoin`-ed) anchor URLs of a page: filter by `ingestion_link_ok`, drop
the fragment, drop self-references, and deduplicate (the Python `set`). -/
def ingestion_extract_links (baseUrl : List Char) (resolved : List (List Char)) :
    List (List Char) :=
  (((resolved.filter (ingestion_link_ok (urlNetloc baseUrl))).map (stripFrom '#')).filter
    (fun l => l ≠ baseUrl)).dedup

/-- C4 (amended): `is_valid_url` accepts exactly the URLs on the same
netloc as the start URL (when domain restriction is on) that match no
blocklisted path core and no static-asset extension — it never inspects
the scheme; the scheme check only exists in the ingestion variant
`_extract_links`, every link of which has an `http`/`https` scheme, the
base netloc, no static-asset extension, and is a fragment-stripped
non-self resolved anchor. -/
theorem link_validity_spec :
    (∀ url base, is_valid_url true url base = true ↔
      (urlNetloc url = urlNetloc base ∧
        (∀ e ∈ advAssetExts, ¬ e.isSuffixOf (lowerStr url)) ∧
        (∀ p ∈ skipPathPats, ¬ containsSub p (lowerStr url)))) ∧
    (∀ base resolved link, link ∈ ingestion_extract_links base resolved →
      ∃ full ∈ resolved, link = stripFrom '#' full ∧
        urlNetloc full = urlNetloc base ∧
        (urlScheme full = str "http" ∨ urlScheme full = str "https") ∧
        (∀ e ∈ ingAssetExts, ¬ e.isSuffixOf full) ∧ link ≠ base) := by
  constructor
  · intro url base
    simp only [is_valid_url, Bool.and_eq_true, Bool.not_eq_true', List.any_eq_false,
      Bool.true_or, Bool.or_eq_true, beq_iff_eq, Bool.not_eq_true]
    constructor
    · rintro ⟨⟨hdom, hext⟩, hpat⟩
      exact ⟨by simpa using hdom, fun e he => by simp [hext e he],
        fun p hp => by simp [hpat p hp]⟩
    · rintro ⟨hdom, hext, hpat⟩
      refine ⟨⟨by simp [hdom], fun e he => by simpa using hext e he⟩,
        fun p hp => by simpa using hpat p hp⟩
  · intro base resolved link hmem
    have hmem' := (List.mem_dedup).mp hmem
    rcases List.mem_filter.mp hmem' with ⟨hmap, hne⟩
    rcases List.mem_map.mp hmap with ⟨full, hfull, hstrip⟩
    rcases List.mem_filter.mp hfull with ⟨hres, hok⟩
    simp only [ingestion_link_ok, Bool.and_eq_true, Bool.not_eq_true', List.any_eq_false,
      Bool.or_eq_true, beq_iff_eq] at hok
    refine ⟨full, hres, hstrip.symm, hok.1.1, hok.1.2, fun e he => by simp [hok.2 e he],
      by simpa using hne⟩

/-- Witness for C4 (amended): the iff direction at an accepted concrete
URL, and the ingestion direction at a concrete one-anchor page. -/
theorem link_validity_spec_witness :
    (urlNetloc (str "http://example.com/about") = urlNetloc (str "http://example.com") ∧
      (∀ e ∈ advAssetExts, ¬ e.isSuffixOf (lowerStr (str "http://example.com/about"))) ∧
      (∀ p ∈ skipPathPats, ¬ containsSub p (lowerStr (str "http://example.com/about")))) ∧
    (∃ full ∈ [str "http://example.com/about#top"],
      str "http://example.com/about" = stripFrom '#' full ∧
        urlNetloc full = urlNetloc (str "http://example.com") ∧
        (urlScheme full = str "http" ∨ urlScheme full = str "https") ∧
        (∀ e ∈ ingAssetExts, ¬ e.isSuffixOf full) ∧
        str "http://example.com/about" ≠ str "http://example.com") :=
  ⟨link_validity_spec.1 (str "http://example.com/about") (str "http://example.com")
      |>.mp (by decide),
    link_validity_spec.2 (str "http://example.com") [str "http://example.com/about#top"]
      (str "http://example.com/about") (by decide)⟩

/-- C4 counterexample: `is_valid_url` accepts a same-domain `ftp://` URL
— the claimed scheme condition is not enforced by the advanced scraper's
link-validity check. -/
theorem is_valid_url_accepts_non_http_scheme :
    is_valid_url true (str "ftp://example.com/page") (str "http://example.com") = true ∧
      urlScheme (str "ftp://example.com/page") ≠ str "http" ∧
      urlScheme (str "ftp://example.com/page") ≠ str "https" := by
  refine ⟨by decide, by decide, by decide⟩

/-! ## Page scraping (src/ingestion.py `scrape_page`,
src/web_scraper.py `scrape_page`) -/

/-- Replace each maximal whitespace run by one space:
`re.sub(r'\s+', ' ', text)`. -/
def collapseWSAux (inRun : Bool) : List Char → List Char
  | [] => []
  | c :: rest =>
      if isPySpace c then
        if inRun then collapseWSAux true rest else ' ' :: collapseWSAux true rest
      else c :: collapseWSAux false rest

/-- `re.sub(r'\s+', ' ', text)`. -/
def collapseWS (s : List Char) : List Char := collapseWSAux false s

/-- A character kept by the ingestion `_clean_text` class
`[^\w\s\.\,\!\?\;\:\-\(\)]` (the ASCII range of the external regex
engine's `\w`). -/
def ingKeepChar (c : Char) : Bool :=
  c.isAlphanum || c = '_' || isPySpace c || c = '.' || c = ',' || c = '!' ||
  c = '?' || c = ';' || c = ':' || c = '-' || c = '(' || c = ')'

/-- Replace each maximal run of plain spaces by one space:
`re.sub(r' +', ' ', text)`. -/
def squeezeSpacesAux (inRun : Bool) : List Char → List Char
  | [] => []
  | c :: rest =>
      if c = ' ' then
        if inRun then squeezeSpacesAux true rest else ' ' :: squeezeSpacesAux true rest
      else c :: squeezeSpacesAux false rest

/-- `WebsiteIngestion._clean_text`: collapse whitespace, drop disallowed
characters, squeeze spaces, strip. -/
def ing_clean_text (s : List Char) : List Char :=
  pyStrip (squeezeSpacesAux false ((collapseWS s).filter ingKeepChar))

/-- The page dict produced by `WebsiteIngestion.scrape_page`. -/
structure IngPage where
  url : List Char
  title : List Char
  content : List Char
  links : List (List Char)
  deriving DecidableEq

/-- The outcome of a successful fetch and parse in
`WebsiteIngestion.scrape_page`, before the repository's own validation
and cleaning: the title text, the text selected by
`_extract_main_content`, and the `urljoin`-resolved anchor URLs the soup
exposes to `_extract_links`.  The HTTP session and BeautifulSoup are
external collaborators, so this record is the oracle input. -/
structure FetchedDoc where
  title : List Char
  rawContent : List Char
  anchors : List (List Char)
  deriving DecidableEq

/-- `WebsiteIngestion.scrape_page`: `None` on a failed fetch (`none`
oracle outcome) and on content whose stripped length is zero; pages with
any non-whitespace content are kept (the under-100-character case only
prints a warning), after cleaning and link extraction. -/
def ingestion_scrape_page (url : List Char) (fetched : Option FetchedDoc) :
    Option IngPage :=
  match fetched with
  | none => none
  | some d =>
      if pyStrip d.rawContent = [] then none
      else some ⟨url, d.title, ing_clean_text d.rawContent,
        ingestion_extract_links url d.anchors⟩

/-- The outcome of a successful fetch and parse in
`AdvancedWebScraper.scrape_page` (title, meta description, smart-extracted
and cleaned content, heading structure), the oracle input standing for
the external HTTP session, BeautifulSoup and regex engine. -/
structure AdvFetched where
  title : List Char
  description : List Char
  content : List Char
  headings : Headings
  deriving DecidableEq

/-- The number of words of Python `str.split()` (maximal non-whitespace
runs), the `word_count` field. -/
def countWordsAux (inWord : Bool) : List Char → Nat
  | [] => 0
  | c :: rest =>
      if isPySpace c then countWordsAux false rest
      else (if inWord then 0 else 1) + countWordsAux true rest

/-- `len(content.split())`. -/
def countWords (s : List Char) : Nat := countWordsAux false s

/-- The page dict returned by `AdvancedWebScraper.scrape_page`. -/
structure CrawlPage where
  url : List Char
  title : List Char
  description : List Char
  content : List Char
  headings : Headings
  wordCount : Nat
  deriving DecidableEq

/-- `AdvancedWebScraper.scrape_page`: assemble the page dict on any
successful fetch — no minimum-content check of any kind — and `None`
only on a fetch/parse exception. -/
def adv_scrape_page (url : List Char) (fetched : Option AdvFetched) : Option CrawlPage :=
  fetched.map fun d =>
    ⟨url, d.title, d.description, d.content, d.headings, countWords d.content⟩

/-- C5 (amended): the ingestion scraper rejects a successfully fetched
page exactly when its extracted text is all whitespace (threshold zero,
not a near-empty threshold), and the advanced scraper performs no content
check at all: every successful fetch yields a page, with the extracted
content passed through verbatim. -/
theorem scrape_page_content_threshold :
    (∀ url d, ingestion_scrape_page url (some d) = none ↔ pyStrip d.rawContent = []) ∧
    (∀ url d, ∃ p, adv_scrape_page url (some d) = some p ∧ p.content = d.content) := by
  constructor
  · intro url d
    constructor
    · intro h
      by_contra hne
      simp only [ingestion_scrape_page, if_neg hne] at h
      exact Option.noConfusion h
    · intro h
      simp only [ingestion_scrape_page, if_pos h]
  · intro url d
    exact ⟨⟨url, d.title, d.description, d.content, d.headings, countWords d.content⟩,
      rfl, rfl⟩

/-- Witness for C5 (amended): a whitespace-only ingestion fetch is
rejected; an advanced fetch with one-character content is kept. -/
theorem scrape_page_content_threshold_witness :
    (ingestion_scrape_page (str "u") (some ⟨str "t", str "  ", []⟩) = none ↔
      pyStrip (str "  ") = []) ∧
    (∃ p, adv_scrape_page (str "u") (some ⟨str "t", str "d", str "a", ⟨[], [], [], [], [], []⟩⟩) =
        some p ∧ p.content = str "a") :=
  ⟨scrape_page_content_threshold.1 (str "u") ⟨str "t", str "  ", []⟩,
    scrape_page_content_threshold.2 (str "u") ⟨str "t", str "d", str "a", ⟨[], [], [], [], [], []⟩⟩⟩

/-! ## The crawler loops (src/web_scraper.py `crawl_website`,
src/ingestion.py `scrape_website`) -/

/-- The loop state of `AdvancedWebScraper.crawl_website`: the collected
pages, the `urls_to_visit` deque of (url, depth) pairs, and the visited
set (kept as the insertion-ordered list of URLs).  `fetchLog` is
instrumentation, recording each (url, depth) at the moment `scrape_page`
is called on it. -/
structure CrawlState where
  pages : List CrawlPage
  frontier : List (List Char × Nat)
  visited : List (List Char)
  fetchLog : List (List Char × Nat)
  deriving DecidableEq

/-- One bounded run of the `while` loop of
`AdvancedWebScraper.crawl_website`.  `fetch` stands for the HTTP session
and parser behind `scrape_page`; `getLinks` stands for the second fetch
plus `extract_links` of lines 205-213 (a fetch failure there corresponds
to the empty list).  `fuel` bounds the number of iterations; the
termination theorem below shows that enough fuel makes the loop exit
through its own condition. -/
def crawl_website_loop (fetch : List Char → Option AdvFetched)
    (getLinks : List Char → List (List Char)) (maxDepth maxPages : Nat) :
    Nat → CrawlState → CrawlState
  | 0, s => s
  | fuel + 1, s =>
      match s.frontier with
      | [] => s
      | (url, depth) :: rest =>
          if maxPages ≤ s.pages.length then s
          else if url ∈ s.visited ∨ maxDepth < depth then
            crawl_website_loop fetch getLinks maxDepth maxPages fuel
              { s with frontier := rest }
          else
            let visited' := s.visited ++ [url]
            let log' := s.fetchLog ++ [(url, depth)]
            match adv_scrape_page url (fetch url) with
            | none =>
                crawl_website_loop fetch getLinks maxDepth maxPages fuel
                  ⟨s.pages, rest, visited', log'⟩
            | some page =>
                let pages' := s.pages ++ [page]
                if pages'.length < maxPages ∧ depth < maxDepth then
                  let newLinks := (getLinks url).filter (fun l => l ∉ visited')
                  crawl_website_loop fetch getLinks maxDepth maxPages fuel
                    ⟨pages', rest ++ newLinks.map (fun l => (l, depth + 1)), visited', log'⟩
                else
                  crawl_website_loop fetch getLinks maxDepth maxPages fuel
                    ⟨pages', rest, visited', log'⟩

/-- The state at entry of `crawl_website(start_url, ...)` on a fresh
scraper: no pages, the start URL at depth 0, nothing visited. -/
def initCrawlState (startUrl : List Char) : CrawlState :=
  ⟨[], [(startUrl, 0)], [], []⟩

/-- `AdvancedWebScraper.crawl_website` on a fresh scraper. -/
def crawl_website (fetch : List Char → Option AdvFetched)
    (getLinks : List Char → List (List Char)) (maxDepth maxPages fuel : Nat)
    (startUrl : List Char) : CrawlState :=
  crawl_website_loop fetch getLinks maxDepth maxPages fuel (initCrawlState startUrl)

/-- The invariant of the crawl loop: the visited list never repeats a
URL, the fetch log is exactly the visited list (with depths), every
fetched URL was taken at depth at most `maxDepth`, and at most `maxPages`
pages are collected. -/
def CrawlInv (maxDepth maxPages : Nat) (s : CrawlState) : Prop :=
  s.visited.Nodup ∧ s.fetchLog.map Prod.fst = s.visited ∧
    (∀ e ∈ s.fetchLog, e.2 ≤ maxDepth) ∧ s.pages.length ≤ maxPages

theorem crawl_website_loop_inv (fetch : List Char → Option AdvFetched)
    (getLinks : List Char → List (List Char)) (maxDepth maxPages : Nat) :
    ∀ (fuel : Nat) (s : CrawlState), CrawlInv maxDepth maxPages s →
      CrawlInv maxDepth maxPages
        (crawl_website_loop fetch getLinks maxDepth maxPages fuel s) := by
  intro fuel
  induction fuel with
  | zero => intro s hs; exact hs
  | succ fuel ih =>
      intro s hs
      obtain ⟨hnd, hlog, hdep, hpg⟩ := hs
      show CrawlInv maxDepth maxPages
        (match s.frontier with
         | [] => s
         | (url, depth) :: rest =>
             if maxPages ≤ s.pages.length then s
             else if url ∈ s.visited ∨ maxDepth < depth then
               crawl_website_loop fetch getLinks maxDepth maxPages fuel
                 { s with frontier := rest }
             else
               let visited' := s.visited ++ [url]
               let log' := s.fetchLog ++ [(url, depth)]
               match adv_scrape_page url (fetch url) with
               | none =>
                   crawl_website_loop fetch getLinks maxDepth maxPages fuel
                     ⟨s.pages, rest, visited', log'⟩
               | some page =>
                   let pages' := s.pages ++ [page]
                   if pages'.length < maxPages ∧ depth < maxDepth then
                     let newLinks := (getLinks url).filter (fun l => l ∉ visited')
                     crawl_website_loop fetch getLinks maxDepth maxPages fuel
                       ⟨pages', rest ++ newLinks.map (fun l => (l, depth + 1)), visited',
                         log'⟩
                   else
                     crawl_website_loop fetch getLinks maxDepth maxPages fuel
                       ⟨pages', rest, visited', log'⟩)
      match hf : s.frontier with
      | [] => exact ⟨hnd, hlog, hdep, hpg⟩
      | (url, depth) :: rest =>
          dsimp only
          by_cases hfull : maxPages ≤ s.pages.length
          · rw [if_pos hfull]
            exact ⟨hnd, hlog, hdep, hpg⟩
          · rw [if_neg hfull]
            by_cases hskip : url ∈ s.visited ∨ maxDepth < depth
            · rw [if_pos hskip]
              exact ih _ ⟨hnd, hlog, hdep, hpg⟩
            · rw [if_neg hskip]
              push_neg at hskip
              obtain ⟨hnew, hdok⟩ := hskip
              have hnd' : (s.visited ++ [url]).Nodup := by
                rw [List.nodup_append]
                refine ⟨hnd, List.nodup_singleton _, fun a ha hb => hnew ?_⟩
                simp only [List.mem_singleton] at hb
                exact hb ▸ ha
              have hlog' : ((s.fetchLog ++ [(url, depth)]).map Prod.fst) =
                  s.visited ++ [url] := by
                rw [List.map_append, hlog]; rfl
              have hdep' : ∀ e ∈ s.fetchLog ++ [(url, depth)], e.2 ≤ maxDepth := by
                intro e he
                rcases List.mem_append.mp he with h | h
                · exact hdep e h
                · simp only [List.mem_singleton] at h
                  subst h
                  exact hdok
              match adv_scrape_page url (fetch url) with
              | none => exact ih _ ⟨hnd', hlog', hdep', hpg⟩
              | some page =>
                  dsimp only
                  by_cases hpush : (s.pages ++ [page]).length < maxPages ∧ depth < maxDepth
                  · rw [if_pos hpush]
                    exact ih _ ⟨hnd', hlog', hdep', le_of_lt hpush.1⟩
                  · rw [if_neg hpush]
                    refine ih _ ⟨hnd', hlog', hdep', ?_⟩
                    rw [List.length_append, List.length_singleton]
                    omega

/-- The number of frontier entries that not-yet-visited URLs among `keys`
could still contribute, `weight u` bounding the links pushed when `u` is
processed.  This is the decreasing potential of the crawl loops. -/
def linkPotential (weight : List Char → Nat) (visited : List (List Char)) :
    List (List Char) → Nat
  | [] => 0
  | u :: us => (if u ∈ visited then 0 else weight u) + linkPotential weight visited us

theorem linkPotential_visit_mono (weight : List Char → Nat)
    (visited : List (List Char)) (url : List Char) :
    ∀ keys, linkPotential weight (visited ++ [url]) keys ≤
      linkPotential weight visited keys := by
  intro keys
  induction keys with
  | nil => exact le_rfl
  | cons k ks ih =>
      simp only [linkPotential]
      refine Nat.add_le_add ?_ ih
      by_cases hk : k ∈ visited
      · simp [hk, List.mem_append]
      · by_cases hk' : k ∈ visited ++ [url] <;> simp [hk, hk']

theorem linkPotential_visit_remove (weight : List Char → Nat)
    (visited : List (List Char)) (url : List Char) (hnew : url ∉ visited) :
    ∀ keys, url ∈ keys →
      linkPotential weight (visited ++ [url]) keys + weight url ≤
        linkPotential weight visited keys := by
  intro keys
  induction keys with
  | nil => intro h; cases h
  | cons k ks ih =>
      intro hmem
      simp only [linkPotential]
      by_cases hk : k = url
      · subst hk
        rw [if_pos (by simp), if_neg hnew]
        have := linkPotential_visit_mono weight visited k ks
        omega
      · have hurl : url ∈ ks := by
          rcases List.mem_cons.mp hmem with h | h
          · exact absurd h.symm hk
          · exact h
        have hterm : (if k ∈ visited ++ [url] then 0 else weight k) ≤
            (if k ∈ visited then 0 else weight k) := by
          by_cases hkv : k ∈ visited
          · simp [hkv, List.mem_append]
          · by_cases hkv' : k ∈ visited ++ [url] <;> simp [hkv, hkv']
        have := ih hurl
        omega

theorem crawl_website_loop_exits (fetch : List Char → Option AdvFetched)
    (getLinks : List Char → List (List Char)) (maxDepth maxPages : Nat)
    (webKeys : List (List Char))
    (hsupp : ∀ u, (fetch u).isSome = true → u ∈ webKeys) :
    ∀ (fuel : Nat) (s : CrawlState),
      s.frontier.length +
          linkPotential (fun u => (getLinks u).length) s.visited webKeys ≤ fuel →
      (crawl_website_loop fetch getLinks maxDepth maxPages fuel s).frontier = [] ∨
        maxPages ≤ (crawl_website_loop fetch getLinks maxDepth maxPages fuel s).pages.length := by
  intro fuel
  induction fuel with
  | zero =>
      intro s hs
      left
      show s.frontier = []
      exact List.eq_nil_of_length_eq_zero (by omega)
  | succ fuel ih =>
      intro s hs
      rw [crawl_website_loop]
      match hf : s.frontier with
      | [] => exact Or.inl hf
      | (url, depth) :: rest =>
          dsimp only
          have hflen : s.frontier.length = rest.length + 1 := by rw [hf]; rfl
          split
          · next hfull => exact Or.inr hfull
          · next hfull =>
              split
              · next hskip =>
                  exact ih _ (by simp only [] at hs ⊢; omega)
              · next hskip =>
                  push_neg at hskip
                  have hmono := linkPotential_visit_mono (fun u => (getLinks u).length)
                    s.visited url webKeys
                  split
                  · next hfetch =>
                      exact ih _ (by simp only [] at hs ⊢; omega)
                  · next page hfetch =>
                      have hkey : url ∈ webKeys := by
                        apply hsupp
                        unfold adv_scrape_page at hfetch
                        rcases Option.map_eq_some'.mp hfetch with ⟨d, hd, _⟩
                        rw [hd]
                        rfl
                      split
                      · next hpush =>
                          have hrem : linkPotential (fun u => (getLinks u).length)
                                (s.visited ++ [url]) webKeys + (getLinks url).length ≤
                              linkPotential (fun u => (getLinks u).length) s.visited webKeys :=
                            linkPotential_visit_remove
                              (fun u => (getLinks u).length) s.visited url hskip.1 webKeys hkey
                          refine ih _ ?_
                          simp only [List.length_append, List.length_map] at hs ⊢
                          have hfilter : ((getLinks url).filter
                              (fun l => l ∉ s.visited ++ [url])).length ≤
                              (getLinks url).length :=
                            List.length_filter_le _ _
                          omega
                      · next hpush =>
                          exact ih _ (by simp only [] at hs ⊢; omega)

/-- The loop state of `WebsiteIngestion.scrape_website`: collected pages,
the `urls_to_visit` list, and the visited set as an insertion-ordered
list (its additions are exactly the URLs passed to `scrape_page`). -/
structure IngCrawlState where
  pages : List IngPage
  frontier : List (List Char)
  visited : List (List Char)
  deriving DecidableEq

/-- One bounded run of the `while` loop of
`WebsiteIngestion.scrape_website`: pop the head URL, skip it if already
visited, otherwise mark it visited and scrape it; on success append the
page and (while below `max_pages`) extend the frontier with the page's
links, unfiltered. -/
def scrape_website_loop (fetchDoc : List Char → Option FetchedDoc) (maxPages : Nat) :
    Nat → IngCrawlState → IngCrawlState
  | 0, s => s
  | fuel + 1, s =>
      match s.frontier with
      | [] => s
      | url :: rest =>
          if maxPages ≤ s.pages.length then s
          else if url ∈ s.visited then
            scrape_website_loop fetchDoc maxPages fuel { s with frontier := rest }
          else
            let visited' := s.visited ++ [url]
            match ingestion_scrape_page url (fetchDoc url) with
            | none => scrape_website_loop fetchDoc maxPages fuel ⟨s.pages, rest, visited'⟩
            | some page =>
                let pages' := s.pages ++ [page]
                if pages'.length < maxPages then
                  scrape_website_loop fetchDoc maxPages fuel
                    ⟨pages', rest ++ page.links, visited'⟩
                else
                  scrape_website_loop fetchDoc maxPages fuel ⟨pages', rest, visited'⟩

/-- `WebsiteIngestion.scrape_website(base_url, max_pages)`. -/
def scrape_website (fetchDoc : List Char → Option FetchedDoc) (maxPages fuel : Nat)
    (baseUrl : List Char) : IngCrawlState :=
  scrape_website_loop fetchDoc maxPages fuel ⟨[], [baseUrl], []⟩

/-- The number of links the page scraped at `u` would push, the frontier
weight of the ingestion loop. -/
def ingLinkWeight (fetchDoc : List Char → Option FetchedDoc) (u : List Char) : Nat :=
  match ingestion_scrape_page u (fetchDoc u) with
  | none => 0
  | some page => page.links.length

theorem scrape_website_loop_inv (fetchDoc : List Char → Option FetchedDoc)
    (maxPages : Nat) :
    ∀ (fuel : Nat) (s : IngCrawlState),
      s.visited.Nodup → s.pages.length ≤ maxPages →
      ((scrape_website_loop fetchDoc maxPages fuel s).visited.Nodup ∧
        (scrape_website_loop fetchDoc maxPages fuel s).pages.length ≤ maxPages) := by
  intro fuel
  induction fuel with
  | zero => intro s h1 h2; exact ⟨h1, h2⟩
  | succ fuel ih =>
      intro s h1 h2
      rw [scrape_website_loop]
      match hf : s.frontier with
      | [] => exact ⟨h1, h2⟩
      | url :: rest =>
          dsimp only
          split
          · next => exact ⟨h1, h2⟩
          · next hfull =>
              split
              · next hvis => exact ih _ h1 h2
              · next hvis =>
                  have h1' : (s.visited ++ [url]).Nodup := by
                    rw [List.nodup_append]
                    refine ⟨h1, List.nodup_singleton _, fun a ha hb => hvis ?_⟩
                    simp only [List.mem_singleton] at hb
                    exact hb ▸ ha
                  split
                  · next => exact ih _ h1' h2
                  · next page hfetch =>
                      split
                      · next hlt => exact ih _ h1' (le_of_lt hlt)
                      · next hge =>
                          refine ih _ h1' ?_
                          rw [List.length_append, List.length_singleton]
                          omega

theorem scrape_website_loop_exits (fetchDoc : List Char → Option FetchedDoc)
    (maxPages : Nat) (ingKeys : List (List Char))
    (hsupp : ∀ u, (fetchDoc u).isSome = true → u ∈ ingKeys) :
    ∀ (fuel : Nat) (s : IngCrawlState),
      s.frontier.length +
          linkPotential (ingLinkWeight fetchDoc) s.visited ingKeys ≤ fuel →
      ((scrape_website_loop fetchDoc maxPages fuel s).frontier = [] ∨
        maxPages ≤ (scrape_website_loop fetchDoc maxPages fuel s).pages.length) := by
  intro fuel
  induction fuel with
  | zero =>
      intro s hs
      left
      show s.frontier = []
      exact List.eq_nil_of_length_eq_zero (by omega)
  | succ fuel ih =>
      intro s hs
      rw [scrape_website_loop]
      match hf : s.frontier with
      | [] => exact Or.inl hf
      | url :: rest =>
          dsimp only
          have hflen : s.frontier.length = rest.length + 1 := by rw [hf]; rfl
          split
          · next hfull => exact Or.inr hfull
          · next hfull =>
              have hmono := linkPotential_visit_mono (ingLinkWeight fetchDoc)
                s.visited url ingKeys
              split
              · next hvis => exact ih _ (by simp only [] at hs ⊢; omega)
              · next hvis =>
                  split
                  · next hfetch => exact ih _ (by simp only [] at hs ⊢; omega)
                  · next page hfetch =>
                      have hkey : url ∈ ingKeys := by
                        apply hsupp
                        unfold ingestion_scrape_page at hfetch
                        match hd : fetchDoc url with
                        | none => rw [hd] at hfetch; exact Option.noConfusion hfetch
                        | some d => rfl
                      have hw : ingLinkWeight fetchDoc url = page.links.length := by
                        unfold ingLinkWeight
                        rw [hfetch]
                      have hrem : linkPotential (ingLinkWeight fetchDoc)
                            (s.visited ++ [url]) ingKeys + ingLinkWeight fetchDoc url ≤
                          linkPotential (ingLinkWeight fetchDoc) s.visited ingKeys :=
                        linkPotential_visit_remove (ingLinkWeight fetchDoc)
                          s.visited url hvis ingKeys hkey
                      rw [hw] at hrem
                      split
                      · next hlt =>
                          refine ih _ ?_
                          simp only [List.length_append] at hs ⊢
                          omega
                      · next hge => exact ih _ (by simp only [] at hs ⊢; omega)

/-- C2: on a fresh scraper, one invocation of the advanced crawl fetches
no URL twice (the fetch log has pairwise-distinct URLs), collects at most
`maxPages` pages, fetches no URL at a frontier depth beyond `maxDepth`,
and — run with the stated fuel, enough for the finite web served by the
oracle — exits through the loop's own condition: the frontier is empty or
`maxPages` pages were collected.  The ingestion variant `scrape_website`
likewise visits no URL twice, respects `maxPages`, and exits normally.
`webKeys`/`ingKeys` enumerate the URLs the fetch oracles can serve. -/
theorem crawler_no_revisit_within_bounds
    (fetch : List Char → Option AdvFetched) (getLinks : List Char → List (List Char))
    (fetchDoc : List Char → Option FetchedDoc) (maxDepth maxPages : Nat)
    (startUrl baseUrl : List Char) (webKeys ingKeys : List (List Char))
    (hsupp : ∀ u, (fetch u).isSome = true → u ∈ webKeys)
    (hsuppI : ∀ u, (fetchDoc u).isSome = true → u ∈ ingKeys) :
    (((crawl_website fetch getLinks maxDepth maxPages
        (1 + linkPotential (fun u => (getLinks u).length) [] webKeys)
        startUrl).fetchLog.map Prod.fst).Nodup ∧
      (crawl_website fetch getLinks maxDepth maxPages
        (1 + linkPotential (fun u => (getLinks u).length) [] webKeys)
        startUrl).pages.length ≤ maxPages ∧
      (∀ e ∈ (crawl_website fetch getLinks maxDepth maxPages
        (1 + linkPotential (fun u => (getLinks u).length) [] webKeys)
        startUrl).fetchLog, e.2 ≤ maxDepth) ∧
      ((crawl_website fetch getLinks maxDepth maxPages
        (1 + linkPotential (fun u => (getLinks u).length) [] webKeys)
        startUrl).frontier = [] ∨
        maxPages ≤ (crawl_website fetch getLinks maxDepth maxPages
          (1 + linkPotential (fun u => (getLinks u).length) [] webKeys)
          startUrl).pages.length)) ∧
    ((scrape_website fetchDoc maxPages
        (1 + linkPotential (ingLinkWeight fetchDoc) [] ingKeys) baseUrl).visited.Nodup ∧
      (scrape_website fetchDoc maxPages
        (1 + linkPotential (ingLinkWeight fetchDoc) [] ingKeys) baseUrl).pages.length ≤
        maxPages ∧
      ((scrape_website fetchDoc maxPages
        (1 + linkPotential (ingLinkWeight fetchDoc) [] ingKeys) baseUrl).frontier = [] ∨
        maxPages ≤ (scrape_website fetchDoc maxPages
          (1 + linkPotential (ingLinkWeight fetchDoc) [] ingKeys) baseUrl).pages.length)) := by
  unfold crawl_website scrape_website
  constructor
  · have hinv := crawl_website_loop_inv fetch getLinks maxDepth maxPages
      (1 + linkPotential (fun u => (getLinks u).length) [] webKeys)
      (initCrawlState startUrl)
      ⟨List.nodup_nil, rfl, fun e he => absurd he (List.not_mem_nil e), Nat.zero_le _⟩
    have hexit := crawl_website_loop_exits fetch getLinks maxDepth maxPages webKeys hsupp
      (1 + linkPotential (fun u => (getLinks u).length) [] webKeys)
      (initCrawlState startUrl) le_rfl
    obtain ⟨hnd, hlog, hdep, hpg⟩ := hinv
    exact ⟨by rw [hlog]; exact hnd, hpg, hdep, hexit⟩
  · have hinv := scrape_website_loop_inv fetchDoc maxPages
      (1 + linkPotential (ingLinkWeight fetchDoc) [] ingKeys)
      ⟨[], [baseUrl], []⟩ List.nodup_nil (Nat.zero_le _)
    have hexit := scrape_website_loop_exits fetchDoc maxPages ingKeys hsuppI
      (1 + linkPotential (ingLinkWeight fetchDoc) [] ingKeys)
      ⟨[], [baseUrl], []⟩ le_rfl
    exact ⟨hinv.1, hinv.2, hexit⟩

/-- A concrete one-page web for the C2 witness: the advanced fetch
oracle. -/
def c2Fetch : List Char → Option AdvFetched :=
  fun u => if u = str "http://s.com" then
    some ⟨str "S", [], str "hello world", ⟨[], [], [], [], [], []⟩⟩
  else none

/-- A concrete one-page web for the C2 witness: the ingestion fetch
oracle. -/
def c2FetchDoc : List Char → Option FetchedDoc :=
  fun u => if u = str "http://s.com" then some ⟨str "S", str "hello world", []⟩ else none

/-- The (empty) link oracle of the C2 witness. -/
def c2Links : List Char → List (List Char) := fun _ => []

/-- Witness for C2 at a one-page web with no outgoing links. -/
theorem crawler_no_revisit_within_bounds_witness :
    (∀ u, (c2Fetch u).isSome = true → u ∈ [str "http://s.com"]) ∧
    (∀ u, (c2FetchDoc u).isSome = true → u ∈ [str "http://s.com"]) ∧
    ((((crawl_website c2Fetch c2Links 2 50
        (1 + linkPotential (fun u => (c2Links u).length) [] [str "http://s.com"])
        (str "http://s.com")).fetchLog.map Prod.fst).Nodup ∧
      (crawl_website c2Fetch c2Links 2 50
        (1 + linkPotential (fun u => (c2Links u).length) [] [str "http://s.com"])
        (str "http://s.com")).pages.length ≤ 50 ∧
      (∀ e ∈ (crawl_website c2Fetch c2Links 2 50
        (1 + linkPotential (fun u => (c2Links u).length) [] [str "http://s.com"])
        (str "http://s.com")).fetchLog, e.2 ≤ 2) ∧
      ((crawl_website c2Fetch c2Links 2 50
        (1 + linkPotential (fun u => (c2Links u).length) [] [str "http://s.com"])
        (str "http://s.com")).frontier = [] ∨
        50 ≤ (crawl_website c2Fetch c2Links 2 50
          (1 + linkPotential (fun u => (c2Links u).length) [] [str "http://s.com"])
          (str "http://s.com")).pages.length)) ∧
    ((scrape_website c2FetchDoc 50
        (1 + linkPotential (ingLinkWeight c2FetchDoc) [] [str "http://s.com"])
        (str "http://s.com")).visited.Nodup ∧
      (scrape_website c2FetchDoc 50
        (1 + linkPotential (ingLinkWeight c2FetchDoc) [] [str "http://s.com"])
        (str "http://s.com")).pages.length ≤ 50 ∧
      ((scrape_website c2FetchDoc 50
        (1 + linkPotential (ingLinkWeight c2FetchDoc) [] [str "http://s.com"])
        (str "http://s.com")).frontier = [] ∨
        50 ≤ (scrape_website c2FetchDoc 50
          (1 + linkPotential (ingLinkWeight c2FetchDoc) [] [str "http://s.com"])
          (str "http://s.com")).pages.length))) := by
  have h1 : ∀ u, (c2Fetch u).isSome = true → u ∈ [str "http://s.com"] := by
    intro u hu
    by_cases h : u = str "http://s.com"
    · rw [h]; exact List.mem_singleton.mpr rfl
    · unfold c2Fetch at hu
      rw [if_neg h] at hu
      exact absurd hu (by decide)
  have h2 : ∀ u, (c2FetchDoc u).isSome = true → u ∈ [str "http://s.com"] := by
    intro u hu
    by_cases h : u = str "http://s.com"
    · rw [h]; exact List.mem_singleton.mpr rfl
    · unfold c2FetchDoc at hu
      rw [if_neg h] at hu
      exact absurd hu (by decide)
  exact ⟨h1, h2, crawler_no_revisit_within_bounds c2Fetch c2Links c2FetchDoc 2 50
    (str "http://s.com") (str "http://s.com") [str "http://s.com"] [str "http://s.com"] h1 h2⟩

/-- The one-page web with empty extracted content, for the C5
counterexample. -/
def emptyContentFetch : List Char → Option AdvFetched :=
  fun u => if u = str "http://e.com" then
    some ⟨str "E", [], [], ⟨[], [], [], [], [], []⟩⟩
  else none

/-- The (empty) link oracle of the C5 counterexample. -/
def emptyContentLinks : List Char → List (List Char) := fun _ => []

/-- C5 counterexample: the advanced crawl appends a successfully fetched
page whose extracted text is empty — its length exceeds no minimum
threshold, yet the page appears in the crawl result. -/
theorem crawl_website_keeps_empty_page :
    (emptyContentFetch (str "http://e.com")).isSome = true ∧
    ((crawl_website emptyContentFetch emptyContentLinks 2 50 3 (str "http://e.com")).pages.map
      CrawlPage.content) = [[]] := by
  constructor
  · rfl
  · rfl

/-! ## Vector store (src/vector_store.py) -/

/-- A retrieved LangChain document: page content plus the metadata the
repository attaches in `create_documents`. -/
structure SourceDoc where
  pageContent : List Char
  url : List Char
  title : List Char
  deriving DecidableEq

/-- `VectorStore.similarity_search`: an uninitialized store
(`self.vector_store` unset) returns `[]` at once; otherwise the wrapped
FAISS call — the oracle `store`, which may raise — runs inside `try`, and
any exception is caught and converted to `[]`. -/
def similarity_search
    (store : Option (List Char → Nat → Except (List Char) (List SourceDoc)))
    (query : List Char) (k : Nat) : List SourceDoc :=
  match store with
  | none => []
  | some s =>
      match s query k with
      | .error _ => []
      | .ok results => results

/-- `VectorStore.similarity_search_with_score`; the scores are
floating-point values owned by FAISS, kept opaque as a type parameter. -/
def similarity_search_with_score {Score : Type}
    (store : Option (List Char → Nat → Except (List Char) (List (SourceDoc × Score))))
    (query : List Char) (k : Nat) : List (SourceDoc × Score) :=
  match store with
  | none => []
  | some s =>
      match s query k with
      | .error _ => []
      | .ok results => results

/-- C6: both similarity searches return the empty list — never an
exception — when the store is uninitialized, when the wrapped library
call fails, and when the wrapped call finds nothing (the zero-document
index). -/
theorem similarity_search_empty_safe :
    (∀ (query : List Char) (k : Nat), similarity_search none query k = []) ∧
    (∀ (store : List Char → Nat → Except (List Char) (List SourceDoc)) query k e,
      store query k = .error e → similarity_search (some store) query k = []) ∧
    (∀ (store : List Char → Nat → Except (List Char) (List SourceDoc)) query k,
      store query k = .ok [] → similarity_search (some store) query k = []) ∧
    (∀ (Score : Type) (query : List Char) (k : Nat),
      similarity_search_with_score
        (none : Option (List Char → Nat → Except (List Char) (List (SourceDoc × Score))))
        query k = []) ∧
    (∀ (Score : Type)
      (store : List Char → Nat → Except (List Char) (List (SourceDoc × Score))) query k e,
      store query k = .error e → similarity_search_with_score (some store) query k = []) ∧
    (∀ (Score : Type)
      (store : List Char → Nat → Except (List Char) (List (SourceDoc × Score))) query k,
      store query k = .ok [] → similarity_search_with_score (some store) query k = []) := by
  refine ⟨fun _ _ => rfl, ?_, ?_, fun _ _ _ => rfl, ?_, ?_⟩
  · intro store query k e h
    simp [similarity_search, h]
  · intro store query k h
    simp [similarity_search, h]
  · intro Score store query k e h
    simp [similarity_search_with_score, h]
  · intro Score store query k h
    simp [similarity_search_with_score, h]

/-- A search oracle that always raises, for the C6 witness. -/
def c6FailingStore : List Char → Nat → Except (List Char) (List SourceDoc) :=
  fun _ _ => .error (str "boom")

/-- A zero-document search oracle, for the C6 witness. -/
def c6EmptyStore : List Char → Nat → Except (List Char) (List (SourceDoc × Int)) :=
  fun _ _ => .ok []

/-- Witness for C6 at concrete failing and empty stores. -/
theorem similarity_search_empty_safe_witness :
    similarity_search none (str "q") 4 = [] ∧
    similarity_search (some c6FailingStore) (str "q") 4 = [] ∧
    similarity_search_with_score (some c6EmptyStore) (str "q") 4 = [] :=
  ⟨similarity_search_empty_safe.1 (str "q") 4,
    similarity_search_empty_safe.2.1 c6FailingStore (str "q") 4 (str "boom") rfl,
    similarity_search_empty_safe.2.2.2.2.2 Int c6EmptyStore (str "q") 4 rfl⟩

/-- `VectorStore.load_vector_store`: only when both the index directory
and the metadata file exist is the wrapped load attempted (`loadResult`
is the oracle for `FAISS.load_local` plus the pickle load and field
assignments); a wrapped exception is caught and `None` returned; missing
files return `None` without attempting a load. -/
def load_vector_store {α : Type} (indexExists metadataExists : Bool)
    (loadResult : Except (List Char) α) : Option α :=
  if indexExists && metadataExists then
    match loadResult with
    | .ok vs => some vs
    | .error _ => none
  else none

/-! ## Chatbot front end (src/chatbot.py) -/

/-- The module-level startup of chatbot.py: the imports and embedding
load (`importOutcome`), the `os.path.exists("faiss_index")` check, and
the wrapped `FAISS.load_local` (`loadResult`).  Returns the pair
`(db, _import_error)`. -/
def chatbot_startup {α : Type} (importOutcome : Except (List Char) Unit)
    (indexExists : Bool) (loadResult : Except (List Char) α) :
    Option α × Option (List Char) :=
  match importOutcome with
  | .error e => (none, some e)
  | .ok _ =>
      if indexExists then
        match loadResult with
        | .ok d => (some d, none)
        | .error e => (none, some e)
      else (none, none)

/-- The module state read by `get_answer`: the `_import_error` string (an
empty exception text is modelled as `none`) and the loaded FAISS handle,
an oracle from (query, k) to results or a raised exception. -/
structure ChatbotEnv where
  importError : Option (List Char)
  db : Option (List Char → Nat → Except (List Char) (List SourceDoc))

/-- `get_answer` of chatbot.py: surface an import error, then a missing
index, then run `similarity_search(query, k=2)` and return the first
document's verbatim `page_content`, a fixed not-found string on an empty
result, or a caught-search-error string. -/
def get_answer (env : ChatbotEnv) (query : List Char) : List Char :=
  match env.importError with
  | some e =>
      str "System Error: " ++ e ++
        str "\n\nThis is likely a Python 3.14 compatibility issue with numpy. Please see instructions to fix."
  | none =>
      match env.db with
      | none =>
          str "Sorry, the AI engine is currently unavailable (FAISS index 'faiss_index' not found)."
      | some db =>
          match db query 2 with
          | .error e => str "Error during search: " ++ e
          | .ok [] => str "Sorry, I could not find relevant information."
          | .ok (d :: _) => d.pageContent

/-- `get_answer_safe` of chatbot.py: the UI wrapper whose try/except
around the (total) `get_answer` is the identity in this embedding. -/
def get_answer_safe (env : ChatbotEnv) (query : List Char) : List Char :=
  get_answer env query

/-- C8: a missing on-disk index makes `load_vector_store` return `None`
(uninitialized, not an error), a wrapped load exception is likewise
caught into `None`; and the chatbot startup with no index directory
leaves `db = None`, so `get_answer` returns the fixed unavailable answer,
while a load exception at startup is surfaced as a returned error
string. -/
theorem load_missing_index_uninitialized :
    (∀ (α : Type) (r : Except (List Char) α) (b1 b2 : Bool), (b1 && b2) = false →
      load_vector_store b1 b2 r = none) ∧
    (∀ (α : Type) (e : List Char) (b1 b2 : Bool),
      load_vector_store b1 b2 (Except.error e : Except (List Char) α) = none) ∧
    (∀ (r : Except (List Char) (List Char → Nat → Except (List Char) (List SourceDoc)))
      (q : List Char),
      get_answer ⟨(chatbot_startup (.ok ()) false r).2, (chatbot_startup (.ok ()) false r).1⟩ q =
        str "Sorry, the AI engine is currently unavailable (FAISS index 'faiss_index' not found).") ∧
    (∀ (e : List Char) (q : List Char),
      get_answer
          ⟨(chatbot_startup (.ok ()) true
              (Except.error e :
                Except (List Char) (List Char → Nat → Except (List Char) (List SourceDoc)))).2,
            (chatbot_startup (.ok ()) true
              (Except.error e :
                Except (List Char) (List Char → Nat → Except (List Char) (List SourceDoc)))).1⟩ q =
        str "System Error: " ++ e ++
          str "\n\nThis is likely a Python 3.14 compatibility issue with numpy. Please see instructions to fix.") := by
  refine ⟨?_, ?_, ?_, ?_⟩
  · intro α r b1 b2 h
    unfold load_vector_store
    rw [if_neg (by simp [h])]
  · intro α e b1 b2
    unfold load_vector_store
    by_cases h : (b1 && b2) = true
    · rw [if_pos h]
    · rw [if_neg h]
  · intro r q
    rfl
  · intro e q
    rfl

/-- Witness for C8 at concrete flags, load errors and queries. -/
theorem load_missing_index_uninitialized_witness :
    load_vector_store false true (Except.ok (str "handle")) = none ∧
    load_vector_store true true
      (Except.error (str "bad pickle") : Except (List Char) (List Char)) = none ∧
    get_answer
        ⟨(chatbot_startup (.ok ()) false
            (Except.ok (fun _ _ => Except.ok []) :
              Except (List Char) (List Char → Nat → Except (List Char) (List SourceDoc)))).2,
          (chatbot_startup (.ok ()) false
            (Except.ok (fun _ _ => Except.ok []) :
              Except (List Char) (List Char → Nat → Except (List Char) (List SourceDoc)))).1⟩
        (str "q") =
      str "Sorry, the AI engine is currently unavailable (FAISS index 'faiss_index' not found)." :=
  ⟨load_missing_index_uninitialized.1 (List Char) (Except.ok (str "handle")) false true rfl,
    load_missing_index_uninitialized.2.1 (List Char) (str "bad pickle") true true,
    load_missing_index_uninitialized.2.2.1 (.ok (fun _ _ => .ok [])) (str "q")⟩

/-! ## Answer pipeline (src/rag_pipeline.py) -/

/-- The raw result dict of invoking the LangChain QA chain (external):
the generated `result` text and the retrieved `source_documents`. -/
structure ChainOutput where
  result : List Char
  sourceDocuments : List SourceDoc

/-- A formatted entry of the `sources` list built by `answer_question`. -/
structure SourceEntry where
  content : List Char
  url : List Char
  title : List Char
  deriving DecidableEq

/-- The response dict of `answer_question` (the success path additionally
carries the raw `source_documents`, which the `sources` entries are
derived from and which no claim mentions). -/
structure AnswerResult where
  answer : List Char
  sources : List SourceEntry
  question : List Char
  deriving DecidableEq

/-- The pipeline state read by `answer_question`: whether
`self.vector_store and self.vector_store.vector_store` is truthy, and the
`qa_chain` attribute — an oracle from the question to the chain output or
a raised exception. -/
structure RAGState where
  vectorStoreInit : Bool
  qaChain : Option (List Char → Except (List Char) ChainOutput)

/-- `doc.page_content[:200] + "..."`. -/
def truncateSnippet (s : List Char) : List Char := s.take 200 ++ str "..."

/-- The `try` body of `answer_question`: invoke the chain and format the
response; any exception is caught and rendered as an error answer with an
empty sources list. -/
def runQaChain (chain : List Char → Except (List Char) ChainOutput)
    (question : List Char) : AnswerResult :=
  match chain question with
  | .error e => ⟨str "Error processing question: " ++ e, [], question⟩
  | .ok out =>
      ⟨out.result,
        out.sourceDocuments.map (fun d => ⟨truncateSnippet d.pageContent, d.url, d.title⟩),
        question⟩

/-- `RAGPipeline.answer_question`: when `qa_chain` is unset it first
calls `create_qa_chain()` OUTSIDE the `try` block; `create_qa_chain`
raises `ValueError` if the vector store is not initialized, and otherwise
builds the chain `mkChain` from the retriever and LLM (external). -/
def answer_question (mkChain : List Char → Except (List Char) ChainOutput)
    (st : RAGState) (question : List Char) : Except PyError AnswerResult :=
  match st.qaChain with
  | some chain => .ok (runQaChain chain question)
  | none =>
      if st.vectorStoreInit then .ok (runQaChain mkChain question)
      else .error .valueError

/-- C3 (amended): `answer_question` returns (never raises) whenever the
QA chain already exists or the vector store is initialized, and any
failure inside the chain invocation is converted into an
error-describing answer with an empty sources list; but when the chain is
not yet created and the vector store is uninitialized, the
`create_qa_chain` call sits outside the `try` block and its `ValueError`
propagates to the caller. -/
theorem answer_question_error_handling :
    (∀ mkChain (st : RAGState) q,
      st.vectorStoreInit = true ∨ st.qaChain.isSome = true →
      ∃ r, answer_question mkChain st q = .ok r) ∧
    (∀ chain q e, chain q = .error e →
      runQaChain chain q = ⟨str "Error processing question: " ++ e, [], q⟩) ∧
    (∀ mkChain q, answer_question mkChain ⟨false, none⟩ q = .error .valueError) := by
  refine ⟨?_, ?_, ?_⟩
  · intro mkChain st q h
    match hq : st.qaChain with
    | some chain => exact ⟨runQaChain chain q, by unfold answer_question; rw [hq]⟩
    | none =>
        have hv : st.vectorStoreInit = true := by
          rcases h with h | h
          · exact h
          · rw [hq] at h
            exact absurd h (by decide)
        exact ⟨runQaChain mkChain q, by unfold answer_question; rw [hq, hv]; rfl⟩
  · intro chain q e h
    unfold runQaChain
    rw [h]
  · intro mkChain q
    rfl

/-- A QA chain that always raises, for the C3 witness. -/
def c3FailingChain : List Char → Except (List Char) ChainOutput :=
  fun _ => .error (str "boom")

/-- Witness for C3 (amended) at a ready pipeline and a failing chain. -/
theorem answer_question_error_handling_witness :
    (∃ r, answer_question c3FailingChain ⟨true, none⟩ (str "q") = .ok r) ∧
    runQaChain c3FailingChain (str "q") =
      ⟨str "Error processing question: " ++ str "boom", [], str "q"⟩ :=
  ⟨answer_question_error_handling.1 c3FailingChain ⟨true, none⟩ (str "q") (Or.inl rfl),
    answer_question_error_handling.2.1 c3FailingChain (str "q") (str "boom") rfl⟩

/-- C3 counterexample: with no QA chain and an uninitialized vector
store, `answer_question` raises `ValueError` to its caller instead of
returning an error answer — the claimed catch-all does not cover the
`create_qa_chain` call. -/
theorem answer_question_raises_uninitialized :
    answer_question (fun _ => .error []) ⟨false, none⟩ (str "q") =
      .error .valueError := rfl

/-- C10: on the deployed chat path, when the index is loaded and the
search succeeds with a non-empty result, `get_answer` returns exactly the
verbatim `page_content` of the first retrieved document (this path
contains no language-model call at all), and the fixed not-found string
when the search result is empty. -/
theorem get_answer_returns_first_document
    (db : List Char → Nat → Except (List Char) (List SourceDoc))
    (q : List Char) (d : SourceDoc) (rest : List SourceDoc) :
    (db q 2 = .ok (d :: rest) → get_answer ⟨none, some db⟩ q = d.pageContent) ∧
    (db q 2 = .ok [] →
      get_answer ⟨none, some db⟩ q = str "Sorry, I could not find relevant information.") := by
  constructor
  · intro h
    unfold get_answer
    dsimp only
    rw [h]
  · intro h
    unfold get_answer
    dsimp only
    rw [h]

/-- A one-hit search oracle for the C10 witness. -/
def c10DbHit : List Char → Nat → Except (List Char) (List SourceDoc) :=
  fun _ _ => .ok [⟨str "the verbatim chunk", str "http://s.com", str "T"⟩]

/-- A no-hit search oracle for the C10 witness. -/
def c10DbMiss : List Char → Nat → Except (List Char) (List SourceDoc) :=
  fun _ _ => .ok []

/-- Witness for C10 at concrete hit and miss oracles. -/
theorem get_answer_returns_first_document_witness :
    get_answer ⟨none, some c10DbHit⟩ (str "q") = str "the verbatim chunk" ∧
    get_answer ⟨none, some c10DbMiss⟩ (str "q") =
      str "Sorry, I could not find relevant information." :=
  ⟨(get_answer_returns_first_document c10DbHit (str "q")
      ⟨str "the verbatim chunk", str "http://s.com", str "T"⟩ []).1 rfl,
    (get_answer_returns_first_document c10DbMiss (str "q")
      ⟨str "the verbatim chunk", str "http://s.com", str "T"⟩ []).2 rfl⟩

